import Mathlib

/-!
Verification of the embedding service in `src/services/app.py`.

The service is a FastAPI app with two routes:
  * `GET /health` returning `{"status": "ok", "model": MODEL_NAME}`;
  * `POST /embed` validating the body against the pydantic model
    `Texts` (`texts: list[str]`), calling `model.encode(payload.texts)`,
    and returning `{"embeddings": [e.tolist() if hasattr(e, 'tolist')
    else list(e) for e in embeddings]}`.

Request and response bodies are modelled as JSON values whose numeric
leaves carry rationals (the numeric value of a float, which is all that
is observable in the JSON output).  The external sentence-transformer
model is modelled abstractly: a per-string encoder (its documented
contract is one vector per input string, in order), together with an
abstract failure function standing for any exception raised inside
`encode`.
-/

/-- JSON values.  Numbers carry their numeric value as a rational. -/
inductive JsonVal where
  | null : JsonVal
  | bool (b : Bool) : JsonVal
  | num (q : Rat) : JsonVal
  | str (s : String) : JsonVal
  | arr (xs : List JsonVal) : JsonVal
  | obj (fields : List (String × JsonVal)) : JsonVal

/-- First binding of a key in a JSON object's field list. -/
def lookupField : List (String × JsonVal) → String → Option JsonVal
  | [], _ => none
  | (k, v) :: rest, key => if k = key then some v else lookupField rest key

/-- A Python value produced by converting one element of a numpy row:
`tolist()` yields plain Python floats, `list(...)` yields numpy scalar
objects.  Both carry the same numeric value. -/
inductive PyNum where
  | pyFloat (q : Rat) : PyNum
  | npFloat (q : Rat) : PyNum
deriving Repr, DecidableEq

/-- The numeric value a Python number serializes to in JSON. -/
def PyNum.toRat : PyNum → Rat
  | .pyFloat q => q
  | .npFloat q => q

/-- One row of the model's numeric-array output (one embedding vector).
`data` is the sequence of numeric values; `hasTolist` records whether
the object offers a `tolist` capability (`hasattr(e, 'tolist')`). -/
structure NumArr where
  data : List Rat
  hasTolist : Bool
deriving Repr, DecidableEq

/-- `e.tolist()`: the row's values as plain Python floats. -/
def NumArr.tolist (e : NumArr) : List PyNum := e.data.map .pyFloat

/-- `list(e)`: generic iteration over the row, yielding numpy scalars. -/
def NumArr.iterList (e : NumArr) : List PyNum := e.data.map .npFloat

/-- The per-element conversion in `embed`:
`e.tolist() if hasattr(e, 'tolist') else list(e)`. -/
def convertElem (e : NumArr) : List PyNum :=
  if e.hasTolist then e.tolist else e.iterList

/-- The conversion described by the spec: a single function from a
numeric array to a plain sequence of floating-point numbers. -/
def specConvert (e : NumArr) : List Rat := e.data

/-- Abstract handle to the loaded sentence-transformer model.
`encodeOne` is the model's encoding of a single string; `err` is the
abstract failure condition of a batch-encode call (`some msg` models an
exception with message `msg` raised inside `model.encode`). -/
structure Model where
  dim : Nat
  encodeOne : String → NumArr
  err : List String → Option String

/-- `model.encode(texts, show_progress_bar=False)`: one output row per
input string, in input order, unless the library raises. -/
def Model.encode (m : Model) (ts : List String) : Except String (List NumArr) :=
  match m.err ts with
  | some msg => .error msg
  | none => .ok (ts.map m.encodeOne)

/-- `None`-free extraction of a string from a JSON value. -/
def asStr : JsonVal → Option String
  | .str s => some s
  | _ => none

/-- Pydantic validation of a value against `list[str]`. -/
def asStrList : JsonVal → Option (List String)
  | .arr xs => xs.mapM asStr
  | _ => none

/-- Pydantic validation of a request body against the model
`Texts(texts: list[str])`: the body must be a JSON object with a
`texts` field holding a list of strings; any other fields are ignored
(pydantic's default `extra` behavior). -/
def parseTexts (body : JsonVal) : Option (List String) :=
  match body with
  | .obj fields =>
      match lookupField fields "texts" with
      | some v => asStrList v
      | none => none
  | _ => none

/-- Whether a JSON value is a string. -/
def isStrVal : JsonVal → Bool
  | .str _ => true
  | _ => false

/-- The spec's precondition, stated directly: the `texts` field is
present and is a sequence of strings. -/
def textsPresentAndStrings (body : JsonVal) : Bool :=
  match body with
  | .obj fields =>
      match lookupField fields "texts" with
      | some (.arr xs) => xs.all isStrVal
      | _ => false
  | _ => false

/-- An HTTP response of the service: a 200 with a JSON body, a 422
validation failure produced by FastAPI before the handler runs, or a
500 from an exception propagating out of the handler. -/
inductive HttpResponse where
  | ok (body : JsonVal) : HttpResponse
  | validationError : HttpResponse
  | serverError (msg : String) : HttpResponse

/-- JSON encoding of one converted embedding row. -/
def jsonOfRow (row : List PyNum) : JsonVal :=
  .arr (row.map fun n => .num n.toRat)

/-- The body of `embed` after validation has succeeded: call
`model.encode`, convert each row, and wrap as `{"embeddings": [...]}`.
An exception from `encode` is not caught and escapes the handler. -/
def encodeThenConvert (m : Model) (ts : List String) : HttpResponse :=
  match m.encode ts with
  | .error msg => .serverError msg
  | .ok embeddings =>
      .ok (.obj [("embeddings", .arr (embeddings.map fun e => jsonOfRow (convertElem e)))])

/-- The `POST /embed` route as observed from outside: FastAPI validates
the body against `Texts` (rejecting with 422 before the handler runs),
then the handler encodes and converts. -/
def embedRoute (m : Model) (body : JsonVal) : HttpResponse :=
  match parseTexts body with
  | none => .validationError
  | some ts => encodeThenConvert m ts

/-- `MODEL_NAME = "all-MiniLM-L6-v2"`, the hardcoded model identifier. -/
def MODEL_NAME : String := "all-MiniLM-L6-v2"

/-- Process-wide state of the service: the model-name constant and the
model handle, both fixed at process start. -/
structure ServerState where
  modelName : String
  model : Model

/-- State at process start: the hardcoded name and the loaded model. -/
def initServer (m : Model) : ServerState :=
  { modelName := MODEL_NAME, model := m }

/-- An incoming request: `GET /health` or `POST /embed` with a body. -/
inductive Request where
  | health : Request
  | embed (body : JsonVal) : Request

/-- `GET /health`: returns `{"status": "ok", "model": MODEL_NAME}`. -/
def healthRoute (s : ServerState) : HttpResponse :=
  .ok (.obj [("status", .str "ok"), ("model", .str s.modelName)])

/-- Serving one request: the response, and the state afterwards. -/
def stepServer (s : ServerState) : Request → ServerState × HttpResponse
  | .health => (s, healthRoute s)
  | .embed body => (s, embedRoute s.model body)

/-- State after serving a sequence of requests. -/
def runServer (s : ServerState) (reqs : List Request) : ServerState :=
  reqs.foldl (fun s r => (stepServer s r).1) s

/-- Decoding one JSON number back into its value. -/
def decodeNum : JsonVal → Option Rat
  | .num q => some q
  | _ => none

/-- Decoding one JSON row back into a numeric vector. -/
def decodeRow : JsonVal → Option (List Rat)
  | .arr xs => xs.mapM decodeNum
  | _ => none

/-- Decoding the `embeddings` field of a 200 response back into a list
of numeric vectors; `none` on any other response shape. -/
def respEmbeddings (r : HttpResponse) : Option (List (List Rat)) :=
  match r with
  | .ok (.obj fields) =>
      match lookupField fields "embeddings" with
      | some (.arr rows) => rows.mapM decodeRow
      | _ => none
  | _ => none

/-- The request body `{"texts": [...]}` for a given list of strings. -/
def textsBody (ts : List String) : JsonVal :=
  .obj [("texts", .arr (ts.map .str))]

/-- A concrete model whose every embedding is `d` zeros; never fails. -/
def constModel (d : Nat) : Model :=
  { dim := d
    encodeOne := fun _ => { data := List.replicate d 0, hasTolist := true }
    err := fun _ => none }

/-- A concrete model whose batch-encode always raises `"boom"`. -/
def failingModel : Model :=
  { dim := 1
    encodeOne := fun _ => { data := [0], hasTolist := true }
    err := fun _ => some "boom" }

/-! ## Helper lemmas -/

lemma mapM_map_some {α β γ : Type} (f : β → Option γ) (h : α → β) (g : α → γ)
    (xs : List α) (hfg : ∀ a, f (h a) = some (g a)) :
    (xs.map h).mapM f = some (xs.map g) := by
  rw [← List.mapM'_eq_mapM]
  induction xs with
  | nil => rfl
  | cons a as ih => simp [List.mapM'_cons, hfg, ih]

lemma asStrList_strings (ts : List String) :
    asStrList (.arr (ts.map JsonVal.str)) = some ts := by
  have hm : (ts.map JsonVal.str).mapM asStr = some (ts.map id) :=
    mapM_map_some asStr JsonVal.str id ts (fun a => rfl)
  show (ts.map JsonVal.str).mapM asStr = some ts
  simpa using hm

lemma parseTexts_textsBody (ts : List String) : parseTexts (textsBody ts) = some ts := by
  simp [parseTexts, textsBody, lookupField, asStrList_strings]

lemma toRat_pyFloat (q : Rat) : PyNum.toRat (.pyFloat q) = q := rfl

lemma toRat_npFloat (q : Rat) : PyNum.toRat (.npFloat q) = q := rfl

lemma convertElem_toRat (e : NumArr) : (convertElem e).map PyNum.toRat = e.data := by
  unfold convertElem NumArr.tolist NumArr.iterList
  split <;>
    simp [List.map_map, Function.comp_def, toRat_pyFloat, toRat_npFloat]

lemma decodeRow_jsonOfRow (row : List PyNum) :
    decodeRow (jsonOfRow row) = some (row.map PyNum.toRat) := by
  show (row.map fun n => JsonVal.num n.toRat).mapM decodeNum = some (row.map PyNum.toRat)
  apply mapM_map_some
  intro a
  rfl

lemma respEmbeddings_embedRoute (m : Model) (body : JsonVal) (ts : List String)
    (hp : parseTexts body = some ts) (h : m.err ts = none) :
    respEmbeddings (embedRoute m body) =
      some (ts.map fun t => (m.encodeOne t).data) := by
  have hrows :
      ((ts.map fun t => jsonOfRow (convertElem (m.encodeOne t))).mapM decodeRow) =
        some (ts.map fun t => (m.encodeOne t).data) := by
    apply mapM_map_some
    intro t
    rw [decodeRow_jsonOfRow, convertElem_toRat]
  have hred : ∀ rows : List JsonVal,
      respEmbeddings (.ok (.obj [("embeddings", .arr rows)])) = rows.mapM decodeRow := by
    intro rows
    simp [respEmbeddings, lookupField]
  have hemb : embedRoute m body =
      .ok (.obj [("embeddings",
        .arr (ts.map fun t => jsonOfRow (convertElem (m.encodeOne t))))]) := by
    simp [embedRoute, hp, encodeThenConvert, Model.encode, h, List.map_map,
      Function.comp_def]
  rw [hemb, hred]
  exact hrows

lemma mapM_asStr_isSome (xs : List JsonVal) :
    (xs.mapM asStr).isSome = xs.all isStrVal := by
  rw [← List.mapM'_eq_mapM]
  induction xs with
  | nil => rfl
  | cons v vs ih =>
    cases v with
    | str s =>
      rw [List.mapM'_cons]
      cases h : List.mapM' asStr vs with
      | none => simp_all [asStr, isStrVal]
      | some ys => simp_all [asStr, isStrVal]
    | null => simp [List.mapM'_cons, asStr, isStrVal]
    | bool b => simp [List.mapM'_cons, asStr, isStrVal]
    | num q => simp [List.mapM'_cons, asStr, isStrVal]
    | arr ys => simp [List.mapM'_cons, asStr, isStrVal]
    | obj fs => simp [List.mapM'_cons, asStr, isStrVal]

lemma parseTexts_obj (fields : List (String × JsonVal)) :
    parseTexts (.obj fields) = (lookupField fields "texts").bind asStrList := by
  show (match lookupField fields "texts" with
    | some v => asStrList v
    | none => none) = (lookupField fields "texts").bind asStrList
  cases lookupField fields "texts" <;> rfl

lemma parseTexts_isSome (body : JsonVal) :
    (parseTexts body).isSome = textsPresentAndStrings body := by
  cases body with
  | obj fields =>
    rw [parseTexts_obj]
    cases hv : lookupField fields "texts" with
    | none => simp [textsPresentAndStrings, hv]
    | some v =>
      cases v with
      | arr xs =>
        rw [Option.some_bind,
          show asStrList (.arr xs) = xs.mapM asStr from rfl, mapM_asStr_isSome]
        simp [textsPresentAndStrings, hv]
      | null => simp [textsPresentAndStrings, hv, asStrList]
      | bool b => simp [textsPresentAndStrings, hv, asStrList]
      | num q => simp [textsPresentAndStrings, hv, asStrList]
      | str s => simp [textsPresentAndStrings, hv, asStrList]
      | obj fs => simp [textsPresentAndStrings, hv, asStrList]
  | null => rfl
  | bool b => rfl
  | num q => rfl
  | str s => rfl
  | arr xs => rfl

lemma stepServer_fst (s : ServerState) (r : Request) : (stepServer s r).1 = s := by
  cases r <;> rfl

lemma runServer_eq (s : ServerState) (reqs : List Request) : runServer s reqs = s := by
  induction reqs generalizing s with
  | nil => rfl
  | cons r rs ih => simp [runServer, stepServer_fst, ih s, List.foldl_cons]

lemma lookupField_skip (pre rest : List (String × JsonVal)) (key : String)
    (hpre : ∀ p ∈ pre, p.1 ≠ key) :
    lookupField (pre ++ rest) key = lookupField rest key := by
  induction pre with
  | nil => rfl
  | cons p ps ih =>
    have hp : p.1 ≠ key := hpre p (by simp)
    simp only [List.cons_append, lookupField, if_neg hp]
    exact ih fun q hq => hpre q (by simp [hq])

/-! ## Claim theorems -/

/-- C1: for every valid request (a body whose `texts` field parses as a
list of strings) on which the model call succeeds, the `embed` response
has exactly one embedding per input string, and the embedding at index
`i` is the model's encoding of the input string at index `i` — no
reordering and no deduplication, including for duplicate strings. -/
theorem embed_preserves_length_and_order (m : Model) (body : JsonVal) (ts : List String)
    (hp : parseTexts body = some ts) (henc : m.err ts = none) :
    ∃ es : List (List Rat),
      respEmbeddings (embedRoute m body) = some es ∧
      es.length = ts.length ∧
      ∀ i : Nat, es[i]? = (ts[i]?).map fun t => (m.encodeOne t).data := by
  refine ⟨ts.map fun t => (m.encodeOne t).data,
    respEmbeddings_embedRoute m body ts hp henc, by simp, ?_⟩
  intro i
  simp [List.getElem?_map]

/-- Witness for C1: a request with a duplicated input string. -/
theorem embed_preserves_length_and_order_witness :
    ∃ es : List (List Rat),
      respEmbeddings (embedRoute (constModel 2) (textsBody ["a", "a"])) = some es ∧
      es.length = 2 ∧
      ∀ i : Nat,
        es[i]? = ((["a", "a"] : List String)[i]?).map
          fun t => ((constModel 2).encodeOne t).data :=
  embed_preserves_length_and_order (constModel 2) (textsBody ["a", "a"]) ["a", "a"]
    (by decide) rfl

/-- C2: for every valid request on which the model call succeeds, and a
model all of whose single-string encodings have its fixed
dimensionality, every inner vector of the response has that length. -/
theorem embed_vectors_have_model_dim (m : Model) (body : JsonVal) (ts : List String)
    (hp : parseTexts body = some ts) (henc : m.err ts = none)
    (hdim : ∀ s : String, (m.encodeOne s).data.length = m.dim) :
    ∃ es : List (List Rat),
      respEmbeddings (embedRoute m body) = some es ∧
      es.length = ts.length ∧
      ∀ v ∈ es, v.length = m.dim := by
  refine ⟨ts.map fun t => (m.encodeOne t).data,
    respEmbeddings_embedRoute m body ts hp henc, by simp, ?_⟩
  intro v hv
  simp only [List.mem_map] at hv
  obtain ⟨t, _, rfl⟩ := hv
  exact hdim t

/-- Witness for C2: the spec's example — a model of dimensionality 384
and input `["hello", "world"]` yields exactly 2 vectors of length 384. -/
theorem embed_vectors_have_model_dim_witness :
    ∃ es : List (List Rat),
      respEmbeddings (embedRoute (constModel 384) (textsBody ["hello", "world"])) = some es ∧
      es.length = 2 ∧
      ∀ v ∈ es, v.length = 384 :=
  embed_vectors_have_model_dim (constModel 384) (textsBody ["hello", "world"])
    ["hello", "world"] (by decide) rfl
    (fun s => by
      show (List.replicate 384 (0 : Rat)).length = 384
      exact List.length_replicate 384 0)

/-- C3: a body whose `texts` field is absent or not a sequence of
strings fails schema validation for every model — a client-error
response produced without consulting the model — and a body whose
`texts` field is a sequence of strings passes validation and reaches
the encode path. -/
theorem embed_validation_gate (m : Model) (body : JsonVal) :
    (textsPresentAndStrings body = false →
      embedRoute m body = .validationError ∧
      ∀ m' : Model, embedRoute m' body = .validationError) ∧
    (textsPresentAndStrings body = true →
      ∃ ts : List String, parseTexts body = some ts ∧
        embedRoute m body = encodeThenConvert m ts) := by
  constructor
  · intro hfalse
    have hnone : parseTexts body = none := by
      cases h : parseTexts body with
      | none => rfl
      | some ts =>
        have hs := parseTexts_isSome body
        rw [h, hfalse] at hs
        simp at hs
    constructor
    · simp [embedRoute, hnone]
    · intro m'
      simp [embedRoute, hnone]
  · intro htrue
    have hsome : (parseTexts body).isSome := by rw [parseTexts_isSome, htrue]
    obtain ⟨ts, hts⟩ := Option.isSome_iff_exists.mp hsome
    exact ⟨ts, hts, by simp [embedRoute, hts]⟩

/-- Witness for C3: a body whose `texts` field is a number is rejected
by validation under every model. -/
theorem embed_validation_gate_witness :
    embedRoute (constModel 1) (JsonVal.obj [("texts", JsonVal.num 3)]) = .validationError ∧
    ∀ m' : Model, embedRoute m' (JsonVal.obj [("texts", JsonVal.num 3)]) = .validationError :=
  (embed_validation_gate (constModel 1) (JsonVal.obj [("texts", JsonVal.num 3)])).1
    (by decide)

/-- C4: the empty request `{"texts": []}` succeeds (the model call on
the empty batch does not raise) and returns `{"embeddings": []}`. -/
theorem embed_empty_texts (m : Model) (h : m.err [] = none) :
    embedRoute m (textsBody []) = .ok (.obj [("embeddings", .arr [])]) := by
  have hp := parseTexts_textsBody []
  simp [embedRoute, hp, encodeThenConvert, Model.encode, h]

/-- Witness for C4: the empty request against a concrete model. -/
theorem embed_empty_texts_witness :
    embedRoute (constModel 3) (textsBody []) = .ok (.obj [("embeddings", .arr [])]) :=
  embed_empty_texts (constModel 3) rfl

/-- C5: after any sequence of prior requests, `health` returns exactly
`{"status": "ok", "model": MODEL_NAME}` with the hardcoded constant
`MODEL_NAME = "all-MiniLM-L6-v2"`, and leaves the server state
unchanged (no side effects, no state leakage between calls). -/
theorem health_fixed_after_any_history (m : Model) (reqs : List Request) :
    stepServer (runServer (initServer m) reqs) .health =
      (runServer (initServer m) reqs,
        .ok (.obj [("status", .str "ok"), ("model", .str MODEL_NAME)])) ∧
    MODEL_NAME = "all-MiniLM-L6-v2" := by
  refine ⟨?_, rfl⟩
  rw [runServer_eq]
  rfl

/-- C6: when the model's encode raises on a validated request, `embed`
propagates that failure unchanged — no catch, no recovery, and never a
partial 200 result. -/
theorem embed_model_failure_propagates (m : Model) (body : JsonVal) (ts : List String)
    (msg : String) (hp : parseTexts body = some ts) (he : m.err ts = some msg) :
    embedRoute m body = .serverError msg ∧
    ∀ b : JsonVal, embedRoute m body ≠ .ok b := by
  have h1 : embedRoute m body = .serverError msg := by
    simp [embedRoute, hp, encodeThenConvert, Model.encode, he]
  refine ⟨h1, fun b hb => ?_⟩
  rw [h1] at hb
  exact HttpResponse.noConfusion hb

/-- Witness for C6: a model raising `"boom"` makes `embed` fail with
exactly that error. -/
theorem embed_model_failure_propagates_witness :
    embedRoute failingModel (textsBody ["x"]) = .serverError "boom" ∧
    ∀ b : JsonVal, embedRoute failingModel (textsBody ["x"]) ≠ .ok b :=
  embed_model_failure_propagates failingModel (textsBody ["x"]) ["x"] "boom"
    (by decide) rfl

/-- C7: the duck-typed per-element conversion (`tolist` when available,
otherwise generic iteration) is equivalent to the single conversion
function of the spec: on every numeric-array row, both branches — and
hence the conversion the code performs — yield the row's plain list of
floating-point values. -/
theorem conversion_branches_agree (e : NumArr) :
    (NumArr.tolist e).map PyNum.toRat = specConvert e ∧
    (NumArr.iterList e).map PyNum.toRat = specConvert e ∧
    (convertElem e).map PyNum.toRat = specConvert e := by
  refine ⟨?_, ?_, convertElem_toRat e⟩
  · simp [NumArr.tolist, specConvert, List.map_map, Function.comp_def, toRat_pyFloat]
  · simp [NumArr.iterList, specConvert, List.map_map, Function.comp_def, toRat_npFloat]

/-- C8: the model handle and the model-name constant are fixed at
process start and no operation — health or embed, on any input —
changes the server state. -/
theorem model_handle_never_mutated (m : Model) (reqs : List Request) :
    (runServer (initServer m) reqs).model = m ∧
    (runServer (initServer m) reqs).modelName = MODEL_NAME ∧
    ∀ (s : ServerState) (r : Request), (stepServer s r).1 = s := by
  refine ⟨?_, ?_, stepServer_fst⟩
  · rw [runServer_eq]
    rfl
  · rw [runServer_eq]
    rfl

/-- C9: with the model fixed at startup, `embed` is deterministic and
history-independent — two calls whose bodies validate to the same
`texts` list receive equal responses, after any two request
histories. -/
theorem embed_history_independent (m : Model) (reqs₁ reqs₂ : List Request)
    (b₁ b₂ : JsonVal) (h : parseTexts b₁ = parseTexts b₂) :
    (stepServer (runServer (initServer m) reqs₁) (.embed b₁)).2 =
      (stepServer (runServer (initServer m) reqs₂) (.embed b₂)).2 := by
  rw [runServer_eq, runServer_eq]
  show embedRoute (initServer m).model b₁ = embedRoute (initServer m).model b₂
  unfold embedRoute
  rw [h]

/-- Witness for C9: the same `texts` list, sent after two different
histories and with different extra fields, gets the same response. -/
theorem embed_history_independent_witness :
    (stepServer (runServer (initServer (constModel 5)) []) (.embed (textsBody ["a"]))).2 =
      (stepServer (runServer (initServer (constModel 5)) [.health])
        (.embed (JsonVal.obj [("texts", JsonVal.arr [JsonVal.str "a"]),
          ("extra", JsonVal.null)]))).2 :=
  embed_history_independent (constModel 5) [] [.health] (textsBody ["a"])
    (JsonVal.obj [("texts", JsonVal.arr [JsonVal.str "a"]), ("extra", JsonVal.null)])
    (by decide)

/-- C10: a body with a well-typed `texts` field plus additional unknown
fields passes validation, the extra fields are ignored, and the
response equals the response for the body with only `texts`. -/
theorem extra_fields_ignored (m : Model) (ts : List String)
    (pre post : List (String × JsonVal))
    (hpre : ∀ p ∈ pre, p.1 ≠ "texts") :
    parseTexts (.obj (pre ++ ("texts", .arr (ts.map .str)) :: post)) = some ts ∧
    embedRoute m (.obj (pre ++ ("texts", .arr (ts.map .str)) :: post)) =
      embedRoute m (textsBody ts) := by
  have hp : parseTexts (.obj (pre ++ ("texts", .arr (ts.map .str)) :: post)) = some ts := by
    rw [parseTexts_obj, lookupField_skip pre _ _ hpre,
      show lookupField (("texts", JsonVal.arr (ts.map JsonVal.str)) :: post) "texts"
          = some (JsonVal.arr (ts.map JsonVal.str)) from by simp [lookupField],
      Option.some_bind, asStrList_strings]
  refine ⟨hp, ?_⟩
  simp only [embedRoute, hp, parseTexts_textsBody]

/-- Witness for C10: unknown fields before and after `texts` are
ignored and do not change the response. -/
theorem extra_fields_ignored_witness :
    parseTexts (.obj ([("a", JsonVal.num 1)] ++
      ("texts", JsonVal.arr (["x"].map JsonVal.str)) :: [("b", JsonVal.bool true)])) =
        some ["x"] ∧
    embedRoute (constModel 4) (.obj ([("a", JsonVal.num 1)] ++
      ("texts", JsonVal.arr (["x"].map JsonVal.str)) :: [("b", JsonVal.bool true)])) =
      embedRoute (constModel 4) (textsBody ["x"]) :=
  extra_fields_ignored (constModel 4) ["x"] [("a", JsonVal.num 1)]
    [("b", JsonVal.bool true)] (by decide)
